import Mathlib

/-
Verification of the daemon_console command dispatch and line-editing core.

This file is a shallow embedding of the Rust sources (src/lib.rs,
src/command.rs, src/logger.rs, src/events.rs) of the Daemon_Console_Rust
repository.  Terminal I/O (raw mode, cursor movement, printing) has no
effect on the console state and is either dropped or, where a claim is
about the side effects themselves, recorded in an explicit effect trace.
Clock reads (chrono Local::now, std Instant::now) are modelled by an
explicit `Now` argument threaded into the functions that read the clock.
Handler trait objects (Box<dyn CommandHandler>) are modelled by an
abstract code type `H` together with an interpretation function
`exec : H -> TerminalApp H -> args -> TerminalApp H × String` passed to
the dispatcher, mirroring dynamic dispatch.
-/

set_option autoImplicit false

namespace DaemonConsole

/-! ## Logger (src/logger.rs) -/

/-- Log level enumeration, from logger.rs `LogLevel`. -/
inductive LogLevel where
  | Info
  | Warn
  | Error
  | Debug
  | Critical
  deriving DecidableEq, Repr

/-- Colors used by logger.rs (crossterm `Color`). -/
inductive AnsiColor where
  | Green
  | Yellow
  | Red
  | DarkGrey
  | AnsiValue (n : Nat)
  deriving DecidableEq, Repr

/-- Display form of crossterm `SetForegroundColor`. -/
def setForegroundColor : AnsiColor → String
  | AnsiColor.Green => "\x1b[38;5;10m"
  | AnsiColor.Yellow => "\x1b[38;5;11m"
  | AnsiColor.Red => "\x1b[38;5;9m"
  | AnsiColor.DarkGrey => "\x1b[38;5;8m"
  | AnsiColor.AnsiValue n => "\x1b[38;5;" ++ toString n ++ "m"

/-- Display form of crossterm `Attribute::Bold`. -/
def ansiBold : String := "\x1b[1m"

/-- Display form of crossterm `Attribute::Italic`. -/
def ansiItalic : String := "\x1b[3m"

/-- Display form of crossterm `ResetColor`. -/
def ansiReset : String := "\x1b[0m"

/-- The (level string, color) pair chosen by `log_message` in logger.rs. -/
def level_parts : LogLevel → String × AnsiColor
  | LogLevel.Info => ("INFO", AnsiColor.Green)
  | LogLevel.Warn => ("WARN", AnsiColor.Yellow)
  | LogLevel.Error => ("ERROR", AnsiColor.Red)
  | LogLevel.Debug => ("DEBUG", AnsiColor.DarkGrey)
  | LogLevel.Critical => ("CRITICAL", AnsiColor.AnsiValue 5)

/-- logger.rs `log_message`.  The call to `Local::now().format("%H:%M:%S")`
is modelled by the explicit `ts` argument. -/
def log_message (level : LogLevel) (message : String) (module_name : Option String)
    (ts : String) : String :=
  let lp := level_parts level
  let mod_pre := match module_name with
    | none => ""
    | some n => n ++ "/"
  match level with
  | LogLevel.Debug =>
      setForegroundColor lp.2 ++ ansiItalic ++ "[" ++ ts ++ "] [" ++ mod_pre ++ lp.1 ++
        "]" ++ ansiReset ++ " " ++ ansiItalic ++ message ++ ansiReset
  | _ =>
      "[" ++ ts ++ "] " ++ ansiBold ++ "[" ++ mod_pre ++ setForegroundColor lp.2 ++ lp.1 ++
        ansiReset ++ ansiBold ++ "]" ++ ansiReset ++ " " ++ message ++ ansiReset

/-- The `get_info!` macro of logger.rs (two-argument form). -/
def get_info (message module_name ts : String) : String :=
  log_message LogLevel.Info message (some module_name) ts

/-- The `get_warn!` macro of logger.rs (two-argument form). -/
def get_warn (message module_name ts : String) : String :=
  log_message LogLevel.Warn message (some module_name) ts

/-- The `get_error!` macro of logger.rs (two-argument form). -/
def get_error (message module_name ts : String) : String :=
  log_message LogLevel.Error message (some module_name) ts

/-- The `get_debug!` macro of logger.rs (two-argument form). -/
def get_debug (message module_name ts : String) : String :=
  log_message LogLevel.Debug message (some module_name) ts

/-- The `get_critical!` macro of logger.rs (two-argument form). -/
def get_critical (message module_name ts : String) : String :=
  log_message LogLevel.Critical message (some module_name) ts

/-! ## Events (src/events.rs) -/

/-- events.rs `DaemonConsoleEvent`.  Timestamps are `timestamp_millis` values. -/
inductive DaemonConsoleEvent where
  | UserConsoleInput (raw : String) (timestamp : Int)
  | TerminalLog (level : LogLevel) (message : String) (module_name : Option String)
      (timestamp : Int)
  | SubprocessLog (pid : Nat) (message : String) (timestamp : Int)
  deriving DecidableEq, Repr

/-! ## Clock model -/

/-- One observation of the clocks made by an entry point: `str` is
`Local::now().format("%H:%M:%S")`, `ms` is `timestamp_millis`, and
`instantMs` is `Instant::now()` measured in milliseconds on a monotonic
scale (so `elapsed().as_secs()` at a later instant `n` from an earlier
instant `t` is `(n - t) / 1000`). -/
structure Now where
  str : String
  ms : Int
  instantMs : Nat
  deriving Repr

/-! ## Key events (crossterm types as used by lib.rs) -/

/-- The key codes distinguished by `process_event` in lib.rs.  All codes
hitting the final wildcard arm are collapsed into `OtherKey`. -/
inductive KeyCode where
  | CharKey (c : Char)
  | Up
  | Down
  | Left
  | Right
  | Enter
  | Backspace
  | OtherKey
  deriving DecidableEq, Repr

/-- crossterm `KeyEventKind`. -/
inductive KeyEventKind where
  | Press
  | Release
  | Repeat
  deriving DecidableEq, Repr

/-- crossterm `KeyModifiers` bitflags as a natural number; `CONTROL` is bit 1. -/
def ctrlMod : Nat := 2

/-- crossterm `KeyEvent`: the three fields compared by the repeat check in
`process_event`. -/
structure KeyEvent where
  code : KeyCode
  modifiers : Nat
  kind : KeyEventKind
  deriving DecidableEq, Repr

/-- crossterm `Event`: key events and (collapsed) everything else. -/
inductive TermEvent where
  | Key (ke : KeyEvent)
  | OtherEvent
  deriving DecidableEq, Repr

/-- The guard `KeyCode::Char('c') if modifiers == KeyModifiers::CONTROL`. -/
def isCtrlC (ke : KeyEvent) : Bool :=
  ke.code == KeyCode.CharKey 'c' && ke.modifiers == ctrlMod

/-- The guard `KeyCode::Char('d') if modifiers == KeyModifiers::CONTROL`. -/
def isCtrlD (ke : KeyEvent) : Bool :=
  ke.code == KeyCode.CharKey 'd' && ke.modifiers == ctrlMod

/-! ## Command registry types (src/command.rs) -/

/-- command.rs `CommandHandlerType`.  Handler trait objects are abstract
codes of type `H`; their behaviour is given by the `exec` interpretation
passed to `execute_command`. -/
inductive CommandHandlerType (H : Type) where
  | PubSync (h : H)
  | PubAsync (h : H)
  deriving DecidableEq

/-- command.rs `RunningCommand`.  The tokio `JoinHandle` is modelled by
its two observable facts used in lib.rs: whether the task has finished
(`is_finished`) and whether an abort signal has been delivered to it
(`abort`; never called in the sources). -/
structure RunningCommand where
  command : List Char
  finished : Bool
  aborted : Bool
  deriving DecidableEq, Repr

/-- Terminal side effects of the shutdown path of `run` (lib.rs),
recorded as a trace.  `AbortTaskEff` is what a `JoinHandle::abort()`
call on a tracked task would record. -/
inductive TermEffect where
  | DisableRawModeEff
  | DisableMouseCaptureEff
  | ShowCursorEff
  | PrintLineEff (s : String)
  | AbortTaskEff (command : List Char)
  deriving DecidableEq, Repr

/-! ## The console state (lib.rs `TerminalApp`) -/

/-- lib.rs `TerminalApp`.  Strings edited character-wise in the source
(`current_input`, history entries, command lines) are sequences of
Unicode scalar values, i.e. `List Char`.  The broadcast `events_tx`
channel is modelled by the flag `events_tx_present` (it is `Some` from
`new()` on) together with the trace `events` of every value passed to
`tx.send`.  `stdout_handle` and the result channel carry no
state-relevant data and are omitted. -/
structure TerminalApp (H : Type) where
  command_history : List (List Char)
  current_input : List Char
  history_index : Option Nat
  last_ctrl_c : Option Nat
  cursor_position : Nat
  should_exit : Bool
  commands : List (List Char × CommandHandlerType H)
  unknown_command_handler : Option (List Char → String)
  async_unknown_command_handler : Option (List Char → String)
  running_commands : List RunningCommand
  last_key_event : Option KeyEvent
  dispatch_event : Bool
  events : List DaemonConsoleEvent
  events_tx_present : Bool

/-- The interpretation of sync handler codes: `execute(&mut self, app, args)`.
Handlers mutate the whole console state and return their output string. -/
abbrev Exec (H : Type) :=
  H → TerminalApp H → List (List Char) → TerminalApp H × String

/-- lib.rs `TerminalApp::new()` (state-relevant fields). -/
def TerminalApp.new {H : Type} : TerminalApp H where
  command_history := []
  current_input := []
  history_index := none
  last_ctrl_c := none
  cursor_position := 0
  should_exit := false
  commands := []
  unknown_command_handler := none
  async_unknown_command_handler := none
  running_commands := []
  last_key_event := none
  dispatch_event := true
  events := []
  events_tx_present := true

/-! ## The commands map

`commands : HashMap<String, CommandHandlerType>` is modelled as an
association list together with `get` / `remove` / `insert` in HashMap
semantics (one binding per key; `insert` replaces). -/

/-- `HashMap::get` on the model. -/
def getCmd {H : Type} : List (List Char × CommandHandlerType H) → List Char →
    Option (CommandHandlerType H)
  | [], _ => none
  | (k, v) :: rest, name => if k = name then some v else getCmd rest name

/-- `HashMap::remove` on the model (drops every binding of the key, so the
model never holds stale duplicate bindings). -/
def removeCmd {H : Type} : List (List Char × CommandHandlerType H) → List Char →
    List (List Char × CommandHandlerType H)
  | [], _ => []
  | (k, v) :: rest, name =>
      if k = name then removeCmd rest name else (k, v) :: removeCmd rest name

/-- `HashMap::insert` on the model: replace any existing binding. -/
def insertCmd {H : Type} (m : List (List Char × CommandHandlerType H))
    (name : List Char) (v : CommandHandlerType H) :
    List (List Char × CommandHandlerType H) :=
  (name, v) :: removeCmd m name

/-! ## Whitespace splitting (`str::split_whitespace`) -/

/-- Accumulator step for `splitWs`: `acc` holds the current word reversed. -/
def splitWsAux : List Char → List Char → List (List Char)
  | [], acc => if acc.isEmpty then [] else [acc.reverse]
  | c :: rest, acc =>
      if c.isWhitespace then
        if acc.isEmpty then splitWsAux rest []
        else acc.reverse :: splitWsAux rest []
      else splitWsAux rest (c :: acc)

/-- `str::split_whitespace().collect()`: the maximal non-empty runs of
non-whitespace characters. -/
def splitWs (s : List Char) : List (List Char) :=
  splitWsAux s []

/-! ## Actions (lib.rs `AppAction`) -/

/-- lib.rs `AppAction`.  The boxed handler of `RegisterCommand` is a
handler code of type `H`. -/
inductive AppAction (H : Type) where
  | RegisterCommand (name : List Char) (h : H)
  | Info (msg : String)
  | Debug (msg : String)
  | Warn (msg : String)
  | Error (msg : String)
  | Critical (msg : String)

/-! ## Event emission and logging methods (lib.rs) -/

/-- lib.rs `TerminalApp::emit_events`: `tx.send` on the broadcast channel
when present (send failures are ignored; the trace records the publish). -/
def emit_events {H : Type} (app : TerminalApp H) (e : DaemonConsoleEvent) :
    TerminalApp H :=
  if app.events_tx_present then { app with events := app.events ++ [e] } else app

/-- lib.rs `TerminalApp::switch_if_dispatch_event`. -/
def switch_if_dispatch_event {H : Type} (app : TerminalApp H) : TerminalApp H :=
  { app with dispatch_event := !app.dispatch_event }

/-- lib.rs `TerminalApp::dispatch_log_events`. -/
def dispatch_log_events {H : Type} (now : Now) (app : TerminalApp H)
    (message : String) (level : LogLevel) : TerminalApp H :=
  if app.dispatch_event then
    emit_events app
      (DaemonConsoleEvent.TerminalLog level message (some ("Stream")) now.ms)
  else app

/-- lib.rs `TerminalApp::info`.  `print_log_entry` only writes to the
terminal and is dropped. -/
def info {H : Type} (now : Now) (app : TerminalApp H) (message : String) :
    TerminalApp H :=
  dispatch_log_events now app message LogLevel.Info

/-- lib.rs `TerminalApp::debug`. -/
def debug {H : Type} (now : Now) (app : TerminalApp H) (message : String) :
    TerminalApp H :=
  dispatch_log_events now app message LogLevel.Debug

/-- lib.rs `TerminalApp::warn`. -/
def warn {H : Type} (now : Now) (app : TerminalApp H) (message : String) :
    TerminalApp H :=
  dispatch_log_events now app message LogLevel.Warn

/-- lib.rs `TerminalApp::error`. -/
def error {H : Type} (now : Now) (app : TerminalApp H) (message : String) :
    TerminalApp H :=
  dispatch_log_events now app message LogLevel.Error

/-- lib.rs `TerminalApp::critical`. -/
def critical {H : Type} (now : Now) (app : TerminalApp H) (message : String) :
    TerminalApp H :=
  dispatch_log_events now app message LogLevel.Critical

/-- lib.rs `TerminalApp::handle_log_action`: toggle the dispatch flag,
forward to the level method, toggle it back. -/
def handle_log_action {H : Type} (now : Now) (app : TerminalApp H)
    (action : AppAction H) : TerminalApp H :=
  let app1 := switch_if_dispatch_event app
  let app2 :=
    match action with
    | AppAction.Info msg => info now app1 msg
    | AppAction.Debug msg => debug now app1 msg
    | AppAction.Warn msg => warn now app1 msg
    | AppAction.Error msg => error now app1 msg
    | AppAction.Critical msg => critical now app1 msg
    | AppAction.RegisterCommand _ _ => app1
  switch_if_dispatch_event app2

/-! ## Registration (lib.rs) -/

/-- lib.rs `TerminalApp::register_command`. -/
def register_command {H : Type} (app : TerminalApp H) (name : List Char)
    (handler : H) : TerminalApp H :=
  { app with commands := insertCmd app.commands name (CommandHandlerType.PubSync handler) }

/-- lib.rs `TerminalApp::register_async_command`. -/
def register_async_command {H : Type} (app : TerminalApp H) (name : List Char)
    (handler : H) : TerminalApp H :=
  { app with commands := insertCmd app.commands name (CommandHandlerType.PubAsync handler) }

/-! ## Line editing (lib.rs) -/

/-- lib.rs `TerminalApp::remove_char_at`: collect the chars, remove at
`index` if in bounds, rebuild the string. -/
def remove_char_at {H : Type} (app : TerminalApp H) (index : Nat) : TerminalApp H :=
  if index < app.current_input.length then
    { app with current_input := app.current_input.eraseIdx index }
  else app

/-- lib.rs `TerminalApp::handle_char_input`: clamp a corrupted cursor to
the character count, insert at the cursor, advance the cursor. -/
def handle_char_input {H : Type} (app : TerminalApp H) (c : Char) : TerminalApp H :=
  let char_count := app.current_input.length
  let pos := if app.cursor_position > char_count then char_count else app.cursor_position
  { app with
      current_input := app.current_input.insertIdx pos c
      cursor_position := pos + 1 }

/-- lib.rs `TerminalApp::handle_ctrl_c`.  Returns the updated state, the
`should_quit` flag and the message that `process_event` prints.
`Instant::now()` is `now.instantMs`; `elapsed().as_secs()` on a stored
instant `t` is `(now.instantMs - t) / 1000`. -/
def handle_ctrl_c {H : Type} (now : Now) (app : TerminalApp H) :
    TerminalApp H × Bool × String :=
  if !app.current_input.isEmpty then
    ({ app with
        current_input := []
        cursor_position := 0
        last_ctrl_c := some now.instantMs },
      false,
      get_info ("Input cleared. Press Ctrl+C again to exit.") ("Daemon Console") now.str)
  else
    match app.last_ctrl_c with
    | some last_time =>
        if (now.instantMs - last_time) / 1000 < 5 then
          (app, true, get_warn ("Exiting application. Goodbye!") ("Daemon Console") now.str)
        else
          ({ app with last_ctrl_c := some now.instantMs },
            false,
            get_info ("Press Ctrl+C again to exit.") ("Daemon Console") now.str)
    | none =>
        ({ app with last_ctrl_c := some now.instantMs },
          false,
          get_info ("Press Ctrl+C again to exit.") ("Daemon Console") now.str)

/-- lib.rs `TerminalApp::handle_up_key`. -/
def handle_up_key {H : Type} (app : TerminalApp H) : TerminalApp H :=
  if app.command_history.isEmpty then app
  else
    match app.history_index with
    | some idx =>
        if 0 < idx then
          let entry := app.command_history.getD (idx - 1) []
          { app with
              history_index := some (idx - 1)
              current_input := entry
              cursor_position := entry.length }
        else app
    | none =>
        let entry := app.command_history.getD (app.command_history.length - 1) []
        { app with
            history_index := some (app.command_history.length - 1)
            current_input := entry
            cursor_position := entry.length }

/-- lib.rs `TerminalApp::handle_down_key`. -/
def handle_down_key {H : Type} (app : TerminalApp H) : TerminalApp H :=
  match app.history_index with
  | some idx =>
      if idx < app.command_history.length - 1 then
        let entry := app.command_history.getD (idx + 1) []
        { app with
            history_index := some (idx + 1)
            current_input := entry
            cursor_position := entry.length }
      else
        { app with
            history_index := none
            current_input := []
            cursor_position := 0 }
  | none => app

/-! ## Async spawning and dispatch (lib.rs / command.rs) -/

/-- lib.rs `TerminalApp::spawn_async_command` (always returns `Ok(())`):
pushes a fresh tracker entry; the spawned task itself runs against a
fresh `TerminalApp::new()` scratch context concurrently with the main
loop and therefore does not change the main console state here. -/
def spawn_async_command {H : Type} (app : TerminalApp H) (command : List Char)
    (_handler : H) : TerminalApp H :=
  { app with
      running_commands :=
        app.running_commands ++ [{ command := command, finished := false, aborted := false }] }

/-- command.rs `execute_command`. -/
def execute_command {H : Type} (exec : Exec H) (now : Now) (app : TerminalApp H)
    (command : List Char) : TerminalApp H × String :=
  match splitWs command with
  | [] => (app, "")
  | cmd_name :: args =>
    match getCmd app.commands cmd_name with
    | some (CommandHandlerType.PubSync h) =>
        let app1 := { app with commands := removeCmd app.commands cmd_name }
        let p := exec h app1 args
        ({ p.1 with
            commands := insertCmd p.1.commands cmd_name (CommandHandlerType.PubSync h) },
          p.2)
    | some (CommandHandlerType.PubAsync h) =>
        (spawn_async_command app command h,
          get_info ("Async command \x27" ++ String.mk cmd_name ++ "\x27 started in the background")
            ("CommandStatus") now.str)
    | none =>
      match app.async_unknown_command_handler with
      | some handler => (app, handler command)
      | none =>
        match app.unknown_command_handler with
        | some handler => (app, handler command)
        | none =>
            (app,
              get_warn ("Command not found or registered: \x27" ++ String.mk command ++ "\x27")
                ("CommandStatus") now.str)

/-- lib.rs `TerminalApp::handle_enter_key`.  The prompt echo, the output
printing and the re-render are terminal I/O and are dropped; the state
changes and the published event are kept.  Returns the final state and
the `should_exit` value the method returns. -/
def handle_enter_key {H : Type} (exec : Exec H) (now : Now) (app : TerminalApp H)
    (_prompt : String) : TerminalApp H × Bool :=
  if app.current_input.any (fun c => !c.isWhitespace) then
    let app1 := { app with command_history := app.command_history ++ [app.current_input] }
    let input_copy := app1.current_input
    let app2 := emit_events app1
      (DaemonConsoleEvent.UserConsoleInput (String.mk input_copy) now.ms)
    let p := execute_command exec now app2 input_copy
    let app4 := { p.1 with
        current_input := []
        cursor_position := 0
        history_index := none }
    (app4, app4.should_exit)
  else
    (app, app.should_exit)

/-! ## Key handling and the event filter (lib.rs `process_event`) -/

/-- The key dispatch arms of `process_event` (the second
`if let Event::Key` block of lib.rs). -/
def handle_key {H : Type} (exec : Exec H) (now : Now) (app : TerminalApp H)
    (code : KeyCode) (modifiers : Nat) : TerminalApp H × Bool :=
  match code with
  | KeyCode.CharKey c =>
      if c = 'd' ∧ modifiers = ctrlMod then
        (app, true)
      else if c = 'c' ∧ modifiers = ctrlMod then
        let r := handle_ctrl_c now app
        (r.1, r.2.1)
      else
        (handle_char_input app c, false)
  | KeyCode.Up => (handle_up_key app, false)
  | KeyCode.Down => (handle_down_key app, false)
  | KeyCode.Left =>
      if 0 < app.cursor_position then
        ({ app with cursor_position := app.cursor_position - 1 }, false)
      else (app, false)
  | KeyCode.Right =>
      if app.cursor_position < app.current_input.length then
        ({ app with cursor_position := app.cursor_position + 1 }, false)
      else (app, false)
  | KeyCode.Enter => handle_enter_key exec now app ("> ")
  | KeyCode.Backspace =>
      if 0 < app.cursor_position then
        ({ remove_char_at app (app.cursor_position - 1) with
            cursor_position := app.cursor_position - 1 }, false)
      else (app, false)
  | KeyCode.OtherKey => (app, false)

/-- lib.rs `TerminalApp::process_event`: drop key-release events, run the
repeat filter against `last_key_event` (with the Ctrl+C / Ctrl+D
exemption), record Ctrl+C / Ctrl+D into `last_key_event`, then dispatch
on the key code. -/
def process_event {H : Type} (exec : Exec H) (now : Now) (app : TerminalApp H)
    (ev : TermEvent) : TerminalApp H × Bool :=
  match ev with
  | TermEvent.OtherEvent => (app, false)
  | TermEvent.Key ke =>
    if ke.kind = KeyEventKind.Release then (app, false)
    else
      let dup :=
        match app.last_key_event with
        | some le => le.code == ke.code && le.modifiers == ke.modifiers && le.kind == ke.kind
        | none => false
      if dup && !(isCtrlC ke || isCtrlD ke) then (app, false)
      else
        let app1 :=
          if isCtrlC ke || isCtrlD ke then { app with last_key_event := some ke } else app
        handle_key exec now app1 ke.code ke.modifiers

/-! ## Tracker reaping and the shutdown path of `run` (lib.rs) -/

/-- lib.rs `TerminalApp::check_running_commands`: collect the indices of
finished tasks and remove them in reverse order, i.e. keep exactly the
unfinished entries in order.  No abort signal is involved. -/
def check_running_commands {H : Type} (app : TerminalApp H) : TerminalApp H :=
  { app with running_commands := app.running_commands.filter (fun cmd => !cmd.finished) }

/-- The shutdown path of lib.rs `run` (the code after the main loop
breaks): disable raw mode, disable mouse capture, show the cursor, print
the exit message if non-empty, return.  The console state is untouched;
the terminal side effects are returned as a trace. -/
def run_teardown {H : Type} (app : TerminalApp H) (exit_message : String) :
    TerminalApp H × List TermEffect :=
  (app,
    [TermEffect.DisableRawModeEff, TermEffect.DisableMouseCaptureEff, TermEffect.ShowCursorEff] ++
      (if exit_message.isEmpty then [] else [TermEffect.PrintLineEff exit_message]))

/-- Recognizer for abort effects in a teardown trace. -/
def isAbortEff : TermEffect → Bool
  | TermEffect.AbortTaskEff _ => true
  | _ => false

/-! ## Lemmas about the commands map -/

theorem getCmd_removeCmd_self {H : Type} :
    ∀ (m : List (List Char × CommandHandlerType H)) (k : List Char),
      getCmd (removeCmd m k) k = none
  | [], _ => rfl
  | (k', _) :: rest, k => by
      simp only [removeCmd]
      by_cases h : k' = k
      · simp only [if_pos h]
        exact getCmd_removeCmd_self rest k
      · simp only [if_neg h, getCmd]
        exact getCmd_removeCmd_self rest k

theorem getCmd_removeCmd_ne {H : Type} (k2 k : List Char) (h2 : k2 ≠ k) :
    ∀ (m : List (List Char × CommandHandlerType H)),
      getCmd (removeCmd m k) k2 = getCmd m k2
  | [] => rfl
  | (k', v) :: rest => by
      simp only [removeCmd, getCmd]
      by_cases h : k' = k
      · rw [if_pos h, if_neg (by rw [h]; exact fun e => h2 e.symm)]
        exact getCmd_removeCmd_ne k2 k h2 rest
      · rw [if_neg h]
        simp only [getCmd]
        by_cases hk : k' = k2
        · rw [if_pos hk, if_pos hk]
        · rw [if_neg hk, if_neg hk]
          exact getCmd_removeCmd_ne k2 k h2 rest

theorem getCmd_insertCmd_self {H : Type}
    (m : List (List Char × CommandHandlerType H)) (k : List Char)
    (v : CommandHandlerType H) :
    getCmd (insertCmd m k v) k = some v := by
  simp [insertCmd, getCmd]

theorem getCmd_insertCmd_ne {H : Type}
    (m : List (List Char × CommandHandlerType H)) (k2 k : List Char)
    (v : CommandHandlerType H) (h2 : k2 ≠ k) :
    getCmd (insertCmd m k v) k2 = getCmd m k2 := by
  simp only [insertCmd, getCmd]
  rw [if_neg (fun e => h2 e.symm)]
  exact getCmd_removeCmd_ne k2 k h2 m

/-! ## Concrete objects used as witness inputs -/

/-- Trivial handler interpretation: do nothing, return the empty string. -/
def execU : Exec Unit := fun _ a _ => (a, "")

/-- A fixed clock observation. -/
def now0 : Now := { str := "00:00:00", ms := 0, instantMs := 0 }

/-! ## Claim C1 -/

/-- Claim C1: for a synchronous handler registered under the first token
`n` of the submitted line, `execute_command` removes it from the
commands map before the `execute` call (the handler runs against a map
with `n` unbound), reinserts it afterwards under the same key `n`, so
`n` is again bound after the call, and any binding the handler created
for a name other than `n` persists. -/
theorem sync_checkout_checkin {H : Type} (exec : Exec H) (now : Now)
    (app : TerminalApp H) (line n : List Char) (args : List (List Char)) (h : H)
    (hsplit : splitWs line = n :: args)
    (hget : getCmd app.commands n = some (CommandHandlerType.PubSync h)) :
    getCmd (removeCmd app.commands n) n = none ∧
    getCmd (execute_command exec now app line).1.commands n =
      some (CommandHandlerType.PubSync h) ∧
    ∀ m, m ≠ n →
      getCmd (execute_command exec now app line).1.commands m =
        getCmd ((exec h { app with commands := removeCmd app.commands n } args).1).commands m := by
  have hrun : execute_command exec now app line =
      ({ (exec h { app with commands := removeCmd app.commands n } args).1 with
          commands :=
            insertCmd ((exec h { app with commands := removeCmd app.commands n } args).1).commands
              n (CommandHandlerType.PubSync h) },
        (exec h { app with commands := removeCmd app.commands n } args).2) := by
    simp only [execute_command]
    rw [hsplit]
    simp only [hget]
  refine ⟨getCmd_removeCmd_self _ _, ?_, ?_⟩
  · rw [hrun]
    exact getCmd_insertCmd_self _ _ _
  · intro m hm
    rw [hrun]
    exact getCmd_insertCmd_ne _ m n _ hm

/-- Handler interpretation that registers a sync command under the name
`other` (a name different from the one it is invoked as). -/
def execReg : Exec Nat := fun h a _ =>
  (register_command a (['o', 't', 'h', 'e', 'r']) (h + 1), "ok")

/-- A console with one sync command `t` registered. -/
def appC1 : TerminalApp Nat :=
  { (TerminalApp.new : TerminalApp Nat) with
      commands := [(['t'], CommandHandlerType.PubSync 0)] }

/-- Witness for C1 at a concrete input: dispatching `t` on a console
where the handler of `t` registers `other`; afterwards `t` is bound to
the original handler and `other` stays registered. -/
theorem sync_checkout_checkin_witness :
    splitWs ['t'] = [['t']] ∧
    getCmd appC1.commands ['t'] = some (CommandHandlerType.PubSync 0) ∧
    getCmd (execute_command execReg now0 appC1 ['t']).1.commands ['t'] =
      some (CommandHandlerType.PubSync 0) ∧
    getCmd (execute_command execReg now0 appC1 ['t']).1.commands (['o', 't', 'h', 'e', 'r']) =
      getCmd ((execReg 0 { appC1 with commands := removeCmd appC1.commands ['t'] } []).1).commands
        (['o', 't', 'h', 'e', 'r']) :=
  ⟨by decide, by decide,
    (sync_checkout_checkin execReg now0 appC1 ['t'] ['t'] [] 0 (by decide) (by decide)).2.1,
    (sync_checkout_checkin execReg now0 appC1 ['t'] ['t'] [] 0 (by decide) (by decide)).2.2
      (['o', 't', 'h', 'e', 'r']) (by decide)⟩

/-! ## Claim C9 -/

/-- Claim C9: if during its own execution a synchronous handler
registers a new handler under the very name it was invoked as, that
registration does not survive `execute_command`: the check-in reinsert
overwrites it with the originally checked-out handler. -/
theorem same_name_reregistration_overwritten {H : Type} (exec : Exec H) (now : Now)
    (app : TerminalApp H) (line n : List Char) (args : List (List Char)) (h : H)
    (g : CommandHandlerType H)
    (hsplit : splitWs line = n :: args)
    (hget : getCmd app.commands n = some (CommandHandlerType.PubSync h))
    (hmid : getCmd ((exec h { app with commands := removeCmd app.commands n } args).1).commands n =
      some g) :
    getCmd (execute_command exec now app line).1.commands n =
      some (CommandHandlerType.PubSync h) ∧
    (g ≠ CommandHandlerType.PubSync h →
      getCmd (execute_command exec now app line).1.commands n ≠ some g) := by
  have hmain := (sync_checkout_checkin exec now app line n args h hsplit hget).2.1
  refine ⟨hmain, fun hne hcontra => hne ?_⟩
  rw [hmain] at hcontra
  injection hcontra with e
  exact e.symm

/-- Handler interpretation that re-registers the very name `t` it is
invoked as, binding it to a different handler code. -/
def execSame : Exec Nat := fun _ a _ => (register_command a ['t'] 99, "done")

/-- Witness for C9 at a concrete input: the handler of `t` rebinds `t`
to handler code 99 during its execution, yet after `execute_command`
returns, `t` is bound to the original handler code 0. -/
theorem same_name_reregistration_overwritten_witness :
    getCmd ((execSame 0 { appC1 with commands := removeCmd appC1.commands ['t'] } []).1).commands
      ['t'] = some (CommandHandlerType.PubSync 99) ∧
    getCmd (execute_command execSame now0 appC1 ['t']).1.commands ['t'] =
      some (CommandHandlerType.PubSync 0) ∧
    getCmd (execute_command execSame now0 appC1 ['t']).1.commands ['t'] ≠
      some (CommandHandlerType.PubSync 99) :=
  ⟨by decide,
    (same_name_reregistration_overwritten execSame now0 appC1 ['t'] ['t'] [] 0
      (CommandHandlerType.PubSync 99) (by decide) (by decide) (by decide)).1,
    (same_name_reregistration_overwritten execSame now0 appC1 ['t'] ['t'] [] 0
      (CommandHandlerType.PubSync 99) (by decide) (by decide) (by decide)).2 (by decide)⟩

/-! ## Claim C2 -/

/-- Claim C2: when the first token of the line matches no registered
command, `execute_command` calls the async unknown handler if set
(regardless of the sync one, which is therefore not invoked when both
are set); otherwise the sync unknown handler if set; otherwise it
returns the built-in command-not-found message. -/
theorem unknown_command_fallback {H : Type} (exec : Exec H) (now : Now)
    (app : TerminalApp H) (line c : List Char) (args : List (List Char))
    (hsplit : splitWs line = c :: args)
    (hget : getCmd app.commands c = none) :
    (∀ f, app.async_unknown_command_handler = some f →
      execute_command exec now app line = (app, f line)) ∧
    (app.async_unknown_command_handler = none →
      ∀ f, app.unknown_command_handler = some f →
        execute_command exec now app line = (app, f line)) ∧
    (app.async_unknown_command_handler = none →
      app.unknown_command_handler = none →
      execute_command exec now app line =
        (app,
          get_warn ("Command not found or registered: \x27" ++ String.mk line ++ "\x27")
            ("CommandStatus") now.str)) := by
  refine ⟨?_, ?_, ?_⟩
  · intro f hf
    simp only [execute_command]
    rw [hsplit]
    simp only [hget, hf]
  · intro hasync f hf
    simp only [execute_command]
    rw [hsplit]
    simp only [hget, hasync, hf]
  · intro hasync hsync
    simp only [execute_command]
    rw [hsplit]
    simp only [hget, hasync, hsync]

/-- A console with no command registered and both unknown handlers set. -/
def appC2 : TerminalApp Unit :=
  { (TerminalApp.new : TerminalApp Unit) with
      unknown_command_handler := some (fun _ => "sync fallback")
      async_unknown_command_handler := some (fun _ => "async fallback") }

/-- Witness for C2 at a concrete input: with both unknown handlers set,
an unmatched command returns the async handler's output. -/
theorem unknown_command_fallback_witness :
    execute_command execU now0 appC2 ['z'] = (appC2, "async fallback") :=
  (unknown_command_fallback execU now0 appC2 ['z'] ['z'] [] (by decide) (by decide)).1
    (fun _ => "async fallback") rfl

/-! ## Claim C3 -/

/-- Claim C3: `handle_ctrl_c` clears a non-empty input buffer, resets
the cursor, records the interrupt time and reports the input-cleared
notice without quitting; on an empty buffer it quits with the goodbye
notice when a prior Ctrl+C was recorded less than 5 seconds ago
(elapsed milliseconds below 5000), and otherwise — 6 or more seconds
since the prior one, or no prior one — records the interrupt time and
reports the press-again notice without quitting. -/
theorem ctrl_c_behaviour {H : Type} (now : Now) (app : TerminalApp H) :
    (app.current_input ≠ [] →
      handle_ctrl_c now app =
        ({ app with
            current_input := []
            cursor_position := 0
            last_ctrl_c := some now.instantMs },
          false,
          get_info ("Input cleared. Press Ctrl+C again to exit.") ("Daemon Console") now.str)) ∧
    (app.current_input = [] →
      (∀ t, app.last_ctrl_c = some t →
        (now.instantMs - t < 5000 →
          handle_ctrl_c now app =
            (app, true,
              get_warn ("Exiting application. Goodbye!") ("Daemon Console") now.str)) ∧
        (6000 ≤ now.instantMs - t →
          handle_ctrl_c now app =
            ({ app with last_ctrl_c := some now.instantMs }, false,
              get_info ("Press Ctrl+C again to exit.") ("Daemon Console") now.str))) ∧
      (app.last_ctrl_c = none →
        handle_ctrl_c now app =
          ({ app with last_ctrl_c := some now.instantMs }, false,
            get_info ("Press Ctrl+C again to exit.") ("Daemon Console") now.str))) := by
  constructor
  · intro hne
    have hb : app.current_input.isEmpty = false := by
      cases h : app.current_input with
      | nil => exact absurd h hne
      | cons a l => rfl
    simp [handle_ctrl_c, hb]
  · intro hemp
    have hb : app.current_input.isEmpty = true := by rw [hemp]; rfl
    constructor
    · intro t ht
      constructor
      · intro hlt
        have h5 : (now.instantMs - t) / 1000 < 5 := by omega
        simp [handle_ctrl_c, hb, ht, h5]
      · intro hge
        have h5 : ¬((now.instantMs - t) / 1000 < 5) := by omega
        simp [handle_ctrl_c, hb, ht, h5]
    · intro hnone
      simp [handle_ctrl_c, hb, hnone]

/-- A console with an empty buffer and a Ctrl+C recorded at instant 0 ms. -/
def appC3 : TerminalApp Unit :=
  { (TerminalApp.new : TerminalApp Unit) with last_ctrl_c := some 0 }

/-- A clock observation 3 seconds after instant 0. -/
def now3 : Now := { str := "00:00:03", ms := 3000, instantMs := 3000 }

/-- Witness for C3 at a concrete input: a second Ctrl+C 3 seconds after
the first, on an empty buffer, returns true with the goodbye notice. -/
theorem ctrl_c_behaviour_witness :
    handle_ctrl_c now3 appC3 =
      (appC3, true, get_warn ("Exiting application. Goodbye!") ("Daemon Console") now3.str) :=
  (((ctrl_c_behaviour now3 appC3).2 rfl).1 0 rfl).1 (by decide)

/-! ## Claim C6 -/

/-- Claim C6: handling a log action drained from the action channel
publishes no event at all (in particular no `TerminalLog` event) when
the dispatch flag is on — its reachable value outside
`handle_log_action`, since the flag starts true and is only ever
toggled in matched pairs there; a direct `info`/`warn`/`error`/`debug`/
`critical` call with dispatch enabled publishes exactly one
`TerminalLog` event; and `handle_log_action` restores the dispatch flag
to its entry value. -/
theorem log_action_suppression {H : Type} (now : Now) (app : TerminalApp H)
    (action : AppAction H) (msg : String)
    (hdisp : app.dispatch_event = true) :
    (handle_log_action now app action).events = app.events ∧
    (handle_log_action now app action).dispatch_event = app.dispatch_event ∧
    (app.events_tx_present = true →
      (info now app msg).events =
        app.events ++
          [DaemonConsoleEvent.TerminalLog LogLevel.Info msg (some ("Stream")) now.ms] ∧
      (warn now app msg).events =
        app.events ++
          [DaemonConsoleEvent.TerminalLog LogLevel.Warn msg (some ("Stream")) now.ms] ∧
      (error now app msg).events =
        app.events ++
          [DaemonConsoleEvent.TerminalLog LogLevel.Error msg (some ("Stream")) now.ms] ∧
      (debug now app msg).events =
        app.events ++
          [DaemonConsoleEvent.TerminalLog LogLevel.Debug msg (some ("Stream")) now.ms] ∧
      (critical now app msg).events =
        app.events ++
          [DaemonConsoleEvent.TerminalLog LogLevel.Critical msg (some ("Stream")) now.ms]) := by
  refine ⟨?_, ?_, ?_⟩
  · cases action <;>
      simp [handle_log_action, switch_if_dispatch_event, info, debug, warn, error, critical,
        dispatch_log_events, emit_events, hdisp]
  · cases action <;>
      simp [handle_log_action, switch_if_dispatch_event, info, debug, warn, error, critical,
        dispatch_log_events, emit_events, hdisp]
  · intro htx
    refine ⟨?_, ?_, ?_, ?_, ?_⟩ <;>
      simp [info, debug, warn, error, critical, dispatch_log_events, emit_events, hdisp, htx]

/-- Witness for C6 at a concrete input: on a fresh console, handling an
`Info` log action leaves the published-event trace empty, while the
direct `info` call publishes the corresponding `TerminalLog` event. -/
theorem log_action_suppression_witness :
    (handle_log_action now0 (TerminalApp.new : TerminalApp Unit)
        (AppAction.Info ("hi"))).events =
      (TerminalApp.new : TerminalApp Unit).events ∧
    (info now0 (TerminalApp.new : TerminalApp Unit) ("hi")).events =
      (TerminalApp.new : TerminalApp Unit).events ++
        [DaemonConsoleEvent.TerminalLog LogLevel.Info ("hi") (some ("Stream")) now0.ms] :=
  ⟨(log_action_suppression now0 TerminalApp.new (AppAction.Info ("hi")) ("hi") rfl).1,
    ((log_action_suppression now0 TerminalApp.new (AppAction.Info ("hi")) ("hi") rfl).2.2
      rfl).1⟩

/-! ## Field-preservation lemmas -/

theorem emit_events_history {H : Type} (app : TerminalApp H) (e : DaemonConsoleEvent) :
    (emit_events app e).command_history = app.command_history := by
  unfold emit_events
  split <;> rfl

theorem emit_events_last_key {H : Type} (app : TerminalApp H) (e : DaemonConsoleEvent) :
    (emit_events app e).last_key_event = app.last_key_event := by
  unfold emit_events
  split <;> rfl

theorem execute_command_preserves_history {H : Type} (exec : Exec H) (now : Now)
    (app : TerminalApp H) (line : List Char)
    (hexec : ∀ h a as, ((exec h a as).1).command_history = a.command_history) :
    (execute_command exec now app line).1.command_history = app.command_history := by
  unfold execute_command
  split
  · rfl
  · split
    · dsimp only
      rw [hexec]
    · rfl
    · split
      · rfl
      · split
        · rfl
        · rfl

theorem execute_command_preserves_last_key {H : Type} (exec : Exec H) (now : Now)
    (app : TerminalApp H) (line : List Char)
    (hexec : ∀ h a as, ((exec h a as).1).last_key_event = a.last_key_event) :
    (execute_command exec now app line).1.last_key_event = app.last_key_event := by
  unfold execute_command
  split
  · rfl
  · split
    · dsimp only
      rw [hexec]
    · rfl
    · split
      · rfl
      · split
        · rfl
        · rfl

theorem handle_enter_key_preserves_last_key {H : Type} (exec : Exec H) (now : Now)
    (app : TerminalApp H) (ps : String)
    (hexec : ∀ h a as, ((exec h a as).1).last_key_event = a.last_key_event) :
    (handle_enter_key exec now app ps).1.last_key_event = app.last_key_event := by
  unfold handle_enter_key
  split
  · dsimp only
    rw [execute_command_preserves_last_key exec now _ _ hexec, emit_events_last_key]
  · rfl

/-! ## Claim C7 -/

/-- The cursor invariant of the line editor: the cursor offset never
exceeds the character count of the input buffer. -/
def cursorInv {H : Type} (app : TerminalApp H) : Prop :=
  app.cursor_position ≤ app.current_input.length

theorem cursorInv_ctrl_c {H : Type} (now : Now) (app : TerminalApp H)
    (h : cursorInv app) : cursorInv (handle_ctrl_c now app).1 := by
  unfold cursorInv at *
  unfold handle_ctrl_c
  split
  · simp
  · split
    · split
      · simpa using h
      · simpa using h
    · simpa using h

theorem cursorInv_char {H : Type} (app : TerminalApp H) (c : Char)
    (h : cursorInv app) : cursorInv (handle_char_input app c) := by
  unfold cursorInv at *
  unfold handle_char_input
  dsimp only
  split
  next hgt =>
    have hl : (app.current_input.insertIdx app.current_input.length c).length =
        app.current_input.length + 1 := List.length_insertIdx _ _ (le_refl _)
    simp [hl]
  next hle =>
    have hp : app.cursor_position ≤ app.current_input.length := h
    have hl : (app.current_input.insertIdx app.cursor_position c).length =
        app.current_input.length + 1 := List.length_insertIdx _ _ hp
    simp [hl]
    omega

theorem cursorInv_up {H : Type} (app : TerminalApp H) (h : cursorInv app) :
    cursorInv (handle_up_key app) := by
  unfold cursorInv at *
  unfold handle_up_key
  split
  · exact h
  · split
    · split
      · simp
      · exact h
    · simp

theorem cursorInv_down {H : Type} (app : TerminalApp H) (h : cursorInv app) :
    cursorInv (handle_down_key app) := by
  unfold cursorInv at *
  unfold handle_down_key
  split
  · split
    · simp
    · simp
  · exact h

theorem cursorInv_enter {H : Type} (exec : Exec H) (now : Now) (app : TerminalApp H)
    (ps : String) (h : cursorInv app) :
    cursorInv (handle_enter_key exec now app ps).1 := by
  unfold cursorInv at *
  unfold handle_enter_key
  split
  · simp
  · exact h

/-- Claim C7: from any console state whose cursor offset is at most the
character count of the input buffer, every key-handling operation of
`process_event` — character insertion, backspace, left/right cursor
moves, history up/down, Enter submission (for an arbitrary handler
interpretation), Ctrl+C and Ctrl+D — results in a state whose cursor
offset is again at most the character count of its input buffer. -/
theorem cursor_invariant_preserved {H : Type} (exec : Exec H) (now : Now)
    (app : TerminalApp H) (code : KeyCode) (modifiers : Nat)
    (hinv : cursorInv app) :
    cursorInv (handle_key exec now app code modifiers).1 := by
  cases code with
  | CharKey c =>
      simp only [handle_key]
      split
      · exact hinv
      · split
        · exact cursorInv_ctrl_c now app hinv
        · exact cursorInv_char app c hinv
  | Up => exact cursorInv_up app hinv
  | Down => exact cursorInv_down app hinv
  | Left =>
      simp only [handle_key]
      split
      · unfold cursorInv at *
        dsimp only
        omega
      · exact hinv
  | Right =>
      simp only [handle_key]
      split
      next hlt =>
        unfold cursorInv at *
        dsimp only
        omega
      · exact hinv
  | Enter => exact cursorInv_enter exec now app ("> ") hinv
  | Backspace =>
      simp only [handle_key]
      split
      next hpos =>
        unfold cursorInv at *
        unfold remove_char_at
        split
        next hlt =>
          dsimp only
          have he := List.length_eraseIdx_add_one hlt
          omega
        next hge =>
          dsimp only
          omega
      · exact hinv
  | OtherKey => exact hinv

/-- Witness for C7 at a concrete input: inserting a character into a
fresh console preserves the cursor invariant. -/
theorem cursor_invariant_preserved_witness :
    cursorInv (handle_key execU now0 (TerminalApp.new : TerminalApp Unit)
      (KeyCode.CharKey 'a') 0).1 :=
  cursor_invariant_preserved execU now0 TerminalApp.new (KeyCode.CharKey 'a') 0
    (Nat.le_refl 0)

/-! ## Claim C8 -/

/-- Claim C8: submitting via Enter with an empty or all-whitespace
buffer (the `any` of non-whitespace characters is false) returns the
state entirely unchanged — in particular nothing is appended to the
history, the buffer, cursor and history cursor keep their values, and
since the equation holds for every handler interpretation `exec`, no
registered or unknown handler is invoked.  Submitting a
trimmed-non-empty buffer appends the raw buffer to `command_history`
(exactly, whenever the dispatched handler leaves the history alone),
clears the buffer, resets the cursor to 0 and clears the history
cursor. -/
theorem enter_submit_effects {H : Type} (exec : Exec H) (now : Now)
    (app : TerminalApp H) (ps : String) :
    (app.current_input.any (fun c => !c.isWhitespace) = false →
      handle_enter_key exec now app ps = (app, app.should_exit)) ∧
    (app.current_input.any (fun c => !c.isWhitespace) = true →
      (handle_enter_key exec now app ps).1.current_input = [] ∧
      (handle_enter_key exec now app ps).1.cursor_position = 0 ∧
      (handle_enter_key exec now app ps).1.history_index = none ∧
      ((∀ h a as, ((exec h a as).1).command_history = a.command_history) →
        (handle_enter_key exec now app ps).1.command_history =
          app.command_history ++ [app.current_input])) := by
  constructor
  · intro hany
    simp [handle_enter_key, hany]
  · intro hany
    refine ⟨?_, ?_, ?_, ?_⟩
    · simp [handle_enter_key, hany]
    · simp [handle_enter_key, hany]
    · simp [handle_enter_key, hany]
    · intro hexec
      have hrun : (handle_enter_key exec now app ps).1.command_history =
          (execute_command exec now
            (emit_events
              { app with command_history := app.command_history ++ [app.current_input] }
              (DaemonConsoleEvent.UserConsoleInput (String.mk app.current_input) now.ms))
            app.current_input).1.command_history := by
        simp [handle_enter_key, hany]
      rw [hrun, execute_command_preserves_history exec now _ _ hexec, emit_events_history]

/-- A console currently editing the two-character buffer `hi`. -/
def appC8 : TerminalApp Unit :=
  { (TerminalApp.new : TerminalApp Unit) with
      current_input := ['h', 'i']
      cursor_position := 2 }

/-- Witness for C8 at a concrete input: submitting the buffer `hi`
appends it to the history and clears the editing state. -/
theorem enter_submit_effects_witness :
    (handle_enter_key execU now0 appC8 ("> ")).1.current_input = [] ∧
    (handle_enter_key execU now0 appC8 ("> ")).1.cursor_position = 0 ∧
    (handle_enter_key execU now0 appC8 ("> ")).1.history_index = none ∧
    (handle_enter_key execU now0 appC8 ("> ")).1.command_history =
      appC8.command_history ++ [appC8.current_input] := by
  have h := (enter_submit_effects execU now0 appC8 ("> ")).2 (by decide)
  exact ⟨h.1, h.2.1, h.2.2.1, h.2.2.2 (fun _ _ _ => rfl)⟩

/-! ## Claim C10 -/

/-- The history-browsing invariant: whenever the history cursor holds an
index, that index is within the bounds of `command_history` (in
particular the history is then non-empty). -/
def histInv {H : Type} (app : TerminalApp H) : Prop :=
  ∀ i, app.history_index = some i → i < app.command_history.length

/-- Claim C10: the history operations (`handle_up_key`,
`handle_down_key` and Enter submission, the only ones touching
`history_index`) preserve the invariant that a held history index is in
bounds; and under this invariant the `len - 1` computations in the
up/down handlers never underflow (the history is non-empty there) and
every index selected for the `command_history[new_index]` access is in
bounds. -/
theorem history_index_invariant {H : Type} (exec : Exec H) (now : Now)
    (app : TerminalApp H) (ps : String) (hinv : histInv app) :
    histInv (handle_up_key app) ∧
    histInv (handle_down_key app) ∧
    histInv (handle_enter_key exec now app ps).1 ∧
    (app.command_history ≠ [] → app.history_index = none →
      1 ≤ app.command_history.length ∧
      app.command_history.length - 1 < app.command_history.length) ∧
    (∀ i, app.history_index = some i → 0 < i →
      i - 1 < app.command_history.length) ∧
    (∀ i, app.history_index = some i → i < app.command_history.length - 1 →
      i + 1 < app.command_history.length) := by
  refine ⟨?_, ?_, ?_, ?_, ?_, ?_⟩
  · unfold handle_up_key
    split
    · exact hinv
    next hne =>
      split
      next idx heq =>
        split
        next hpos =>
          intro j hj
          dsimp only at hj ⊢
          have hb := hinv idx heq
          have : idx - 1 = j := by
            injection hj with e
          omega
        next => exact hinv
      next heq =>
        intro j hj
        dsimp only at hj ⊢
        have hlen : 0 < app.command_history.length := by
          cases hlist : app.command_history with
          | nil => rw [hlist] at hne; exact absurd rfl hne
          | cons a l => simp [hlist]
        have : app.command_history.length - 1 = j := by
          injection hj with e
        omega
  · unfold handle_down_key
    split
    next idx heq =>
      split
      next hlt =>
        intro j hj
        dsimp only at hj ⊢
        have hb := hinv idx heq
        have : idx + 1 = j := by
          injection hj with e
        omega
      next =>
        intro j hj
        dsimp only at hj
        exact absurd hj (by simp)
    · exact hinv
  · unfold handle_enter_key
    split
    · intro j hj
      dsimp only at hj
      exact absurd hj (by simp)
    · exact hinv
  · intro hne hnone
    have hlen : 0 < app.command_history.length := List.length_pos.mpr hne
    omega
  · intro i hi hpos
    have hb := hinv i hi
    omega
  · intro i hi hlt
    have hb := hinv i hi
    omega

/-- A console with two history entries, currently browsing entry 1. -/
def appC10 : TerminalApp Unit :=
  { (TerminalApp.new : TerminalApp Unit) with
      command_history := [['a'], ['b']]
      history_index := some 1 }

/-- Witness for C10 at a concrete input: on a console browsing entry 1
of a 2-entry history, the up handler keeps the invariant and the index
selected by moving up is in bounds. -/
theorem history_index_invariant_witness :
    histInv (handle_up_key appC10) ∧ 1 - 1 < appC10.command_history.length := by
  have hinv : histInv appC10 := by
    intro i hi
    simp [appC10, TerminalApp.new] at hi ⊢
    omega
  have h := history_index_invariant execU now0 appC10 ("> ") hinv
  exact ⟨h.1, h.2.2.2.2.1 1 rfl (by decide)⟩

/-! ## Claim C4 -/

theorem handle_key_preserves_last_key {H : Type} (exec : Exec H) (now : Now)
    (app : TerminalApp H) (code : KeyCode) (modifiers : Nat)
    (hexec : ∀ h a as, ((exec h a as).1).last_key_event = a.last_key_event) :
    (handle_key exec now app code modifiers).1.last_key_event = app.last_key_event := by
  cases code with
  | CharKey c =>
      simp only [handle_key]
      split
      · rfl
      · split
        · show (handle_ctrl_c now app).1.last_key_event = app.last_key_event
          unfold handle_ctrl_c
          split
          · rfl
          · split
            · split <;> rfl
            · rfl
        · rfl
  | Up =>
      show (handle_up_key app).last_key_event = app.last_key_event
      unfold handle_up_key
      split
      · rfl
      · split
        · split <;> rfl
        · rfl
  | Down =>
      show (handle_down_key app).last_key_event = app.last_key_event
      unfold handle_down_key
      split
      · split <;> rfl
      · rfl
  | Left =>
      simp only [handle_key]
      split <;> rfl
  | Right =>
      simp only [handle_key]
      split <;> rfl
  | Enter => exact handle_enter_key_preserves_last_key exec now app ("> ") hexec
  | Backspace =>
      simp only [handle_key]
      split
      · show (remove_char_at app (app.cursor_position - 1)).last_key_event =
          app.last_key_event
        unfold remove_char_at
        split <;> rfl
      · rfl
  | OtherKey => rfl

/-- The reachable values of `last_key_event`: it starts as `None` and is
only ever assigned in the two Ctrl+C / Ctrl+D arms of `process_event`,
so whenever it holds an event, that event is Ctrl+C or Ctrl+D. -/
def ctrlLastInv {H : Type} (app : TerminalApp H) : Prop :=
  ∀ le, app.last_key_event = some le → (isCtrlC le || isCtrlD le) = true

/-- A plain `a` key press with no modifiers. -/
def keyA : KeyEvent :=
  { code := KeyCode.CharKey 'a', modifiers := 0, kind := KeyEventKind.Press }

/-- Counterexample to C4 as stated: pressing `a` twice in a row — the
second event an exact repeat (same code, modifiers and kind) of the
immediately preceding key event — is not discarded: the second press
changes the console state again (the buffer grows from one character to
two), because `last_key_event` only ever records Ctrl+C / Ctrl+D. -/
theorem repeat_key_not_discarded :
    (process_event execU now0
        (process_event execU now0 (TerminalApp.new : TerminalApp Unit)
          (TermEvent.Key keyA)).1
        (TermEvent.Key keyA)).1.current_input ≠
      (process_event execU now0 (TerminalApp.new : TerminalApp Unit)
        (TermEvent.Key keyA)).1.current_input := by
  decide

/-- Claim C4 (amended): the repeat check of `process_event` compares
against `last_key_event`, which only ever records Ctrl+C and Ctrl+D
presses, and exactly those are exempted from discarding; hence on every
reachable state (those satisfying `ctrlLastInv`) no non-release key
event is ever discarded as a repeat — every such event is dispatched to
the key handlers, repeated ordinary keys and repeated Ctrl+C / Ctrl+D
alike — and the reachable-state invariant is preserved (for handler
interpretations that, like the crate-private field makes inevitable,
leave `last_key_event` alone). -/
theorem repeat_dedup_only_ctrl_keys {H : Type} (exec : Exec H) (now : Now)
    (app : TerminalApp H) (ke : KeyEvent)
    (hinv : ctrlLastInv app) (hkind : ke.kind ≠ KeyEventKind.Release)
    (hexec : ∀ h a as, ((exec h a as).1).last_key_event = a.last_key_event) :
    process_event exec now app (TermEvent.Key ke) =
      handle_key exec now
        (if isCtrlC ke || isCtrlD ke then { app with last_key_event := some ke } else app)
        ke.code ke.modifiers ∧
    ctrlLastInv (process_event exec now app (TermEvent.Key ke)).1 := by
  have hmain : process_event exec now app (TermEvent.Key ke) =
      handle_key exec now
        (if isCtrlC ke || isCtrlD ke then { app with last_key_event := some ke } else app)
        ke.code ke.modifiers := by
    unfold process_event
    dsimp only
    rw [if_neg hkind]
    cases hlast : app.last_key_event with
    | none => simp
    | some le =>
        dsimp only
        cases hc : (isCtrlC ke || isCtrlD ke) with
        | true => simp [hc]
        | false =>
            have hdup : (le.code == ke.code && le.modifiers == ke.modifiers &&
                le.kind == ke.kind) = false := by
              by_contra hcon
              rw [Bool.not_eq_false] at hcon
              simp only [Bool.and_eq_true, beq_iff_eq] at hcon
              obtain ⟨⟨hcode, hmods⟩, _⟩ := hcon
              have hctrl := hinv le hlast
              rw [isCtrlC, isCtrlD, hcode, hmods] at hctrl
              rw [isCtrlC, isCtrlD] at hc
              rw [hctrl] at hc
              exact Bool.noConfusion hc
            simp [hc, hdup]
  refine ⟨hmain, ?_⟩
  rw [hmain]
  intro le hle
  rw [handle_key_preserves_last_key exec now _ ke.code ke.modifiers hexec] at hle
  cases hc : (isCtrlC ke || isCtrlD ke) with
  | true =>
      rw [hc] at hle
      simp only [if_true] at hle
      have : some ke = some le := hle
      injection this with e
      rw [← e]
      exact hc
  | false =>
      rw [hc] at hle
      simp only [Bool.false_eq_true, if_false] at hle
      exact hinv le hle

/-- Witness for the amended C4 at a concrete input: on a fresh console,
a plain `a` press is dispatched to the key handlers (not discarded). -/
theorem repeat_dedup_only_ctrl_keys_witness :
    process_event execU now0 (TerminalApp.new : TerminalApp Unit) (TermEvent.Key keyA) =
      handle_key execU now0 (TerminalApp.new : TerminalApp Unit) keyA.code keyA.modifiers := by
  have h := (repeat_dedup_only_ctrl_keys execU now0 TerminalApp.new keyA
      (fun le hle => absurd hle (by simp [TerminalApp.new]))
      (by decide) (fun _ _ _ => rfl)).1
  rw [show (isCtrlC keyA || isCtrlD keyA) = false from by decide] at h
  simpa using h

/-! ## Claim C5 -/

/-- A console whose tracker holds one still-running (unfinished,
unaborted) async command. -/
def appC5 : TerminalApp Unit :=
  { (TerminalApp.new : TerminalApp Unit) with
      running_commands := [{ command := ['s'], finished := false, aborted := false }] }

/-- Counterexample to C5 as stated: with one still-running task in the
tracker, the shutdown path of `run` emits no abort signal for it — the
teardown trace contains no abort effect at all. -/
theorem shutdown_no_abort_counterexample :
    ¬ (∀ cmd ∈ appC5.running_commands, cmd.finished = false →
        TermEffect.AbortTaskEff cmd.command ∈ (run_teardown appC5 ("bye")).2) := by
  decide

/-- Claim C5 (amended): when the main loop of `run` exits, the shutdown
path only restores the terminal (disable raw mode, disable mouse
capture, show cursor) and prints the exit banner; it sends no
abort/cancel signal to any tracked task and leaves the tracker
untouched, and the per-tick `check_running_commands` reaping only
prunes already-finished entries without touching still-running ones. -/
theorem shutdown_sends_no_abort {H : Type} (app : TerminalApp H)
    (exit_message : String) :
    (∀ e ∈ (run_teardown app exit_message).2, isAbortEff e = false) ∧
    (run_teardown app exit_message).1.running_commands = app.running_commands ∧
    (∀ cmd ∈ (check_running_commands app).running_commands,
      cmd ∈ app.running_commands ∧ cmd.finished = false) := by
  refine ⟨?_, rfl, ?_⟩
  · intro e he
    unfold run_teardown at he
    dsimp only at he
    rcases List.mem_append.mp he with h | h
    · simp only [List.mem_cons, List.not_mem_nil, or_false] at h
      rcases h with rfl | rfl | rfl <;> rfl
    · by_cases hm : exit_message.isEmpty
      · rw [if_pos hm] at h
        simp at h
      · rw [if_neg hm] at h
        simp only [List.mem_singleton] at h
        subst h
        rfl
  · intro cmd hc
    unfold check_running_commands at hc
    dsimp only at hc
    rw [List.mem_filter] at hc
    exact ⟨hc.1, by simpa using hc.2⟩

/-- Witness for the amended C5 at a concrete input: on a console with a
still-running task, the first teardown effect is not an abort, and the
tracker is unchanged by the teardown. -/
theorem shutdown_sends_no_abort_witness :
    isAbortEff TermEffect.DisableRawModeEff = false ∧
    (run_teardown appC5 ("bye")).1.running_commands = appC5.running_commands :=
  ⟨(shutdown_sends_no_abort appC5 ("bye")).1 TermEffect.DisableRawModeEff (by decide),
    (shutdown_sends_no_abort appC5 ("bye")).2.1⟩
